import Mathlib

/-!
# Verification of the go-rest template-resolution engine and document store

This file shallowly embeds the core logic of `main.go` — the response-reference
parser (`parseVariable`), the JSON field extractor (`extractJSONField`), the
substitution engine (`processSubstitution`, `subJSONObject`), the environment
variable resolver (`resolveEnvVar`), and the document store operations
(`loadRequests`, `saveSavedRequests`, `deleteEnvironment`, `deleteGroup`,
`dedupRequestNames`) — and proves or refutes the specified properties.

Modelling conventions:
* Go strings are Lean `String`s; Go slicing `s[a:b]` is `goSlice` on `List Char`.
* Go `any` values holding decoded JSON are the inductive `JSONValue`
  (`nil` interfaces and JSON `null` both decode to `JSONValue.null`).
* Go numbers decoded from JSON are `float64`; every value the specification
  exercises is integral, so `JSONValue.num` carries an `Int` and is encoded in
  the same decimal form `encoding/json` produces for integral floats.
* File-system reads are represented by the `LoadInput` sum (absent file, empty
  file, read error, unparsable content, parsed document), and OS randomness /
  clock reads (`generateID`, `time.Now`) are passed in as parameters.
* The OS environment is a partial map `String → Option String`; `os.Getenv`
  is its total projection returning `""` for unset names.
-/

namespace GoRest

/-- Decimal digit character, `'0'` through `'9'` (models Go's digit emission in
`strconv.Itoa`). -/
def digitChar (d : Nat) : Char := Char.ofNat (48 + d)

/-- Fuel-bounded worker for `natDigits`; any fuel above the number itself is
sufficient, so the `0` fallback is unreachable from `natDigits`. -/
def natDigitsAux : Nat → Nat → List Char
  | 0, _ => []
  | fuel + 1, n =>
    if n < 10 then [digitChar n]
    else natDigitsAux fuel (n / 10) ++ [digitChar (n % 10)]

/-- Decimal digit list of a natural number, models `strconv.Itoa` for the
nonnegative counters used by the store. -/
def natDigits (n : Nat) : List Char := natDigitsAux (n + 1) n

/-- Decimal string of a natural number (models `strconv.Itoa` on naturals). -/
def natToString (n : Nat) : String := ⟨natDigits n⟩

/-- Decimal string of an integer (models the decimal text `encoding/json`
emits for an integral number). -/
def intToString (n : Int) : String :=
  if n < 0 then "-" ++ natToString n.natAbs else natToString n.natAbs

/-- Go slice expression `s[a:b]` on a character list. -/
def goSlice (s : List Char) (a b : Nat) : List Char := (s.take b).drop a

/-- First index at which `pat` occurs as a contiguous sublist of `s`
(models `strings.Index`); `none` when absent. -/
def indexOfSubstr (s pat : List Char) : Option Nat :=
  if pat.isPrefixOf s then some 0
  else
    match s with
    | [] => none
    | _ :: t => (indexOfSubstr t pat).map (· + 1)

/-- Worker for `splitStr`. -/
def goSplit (sep : Char) : List Char → List (List Char)
  | [] => [[]]
  | c :: t =>
    if c = sep then [] :: goSplit sep t
    else
      match goSplit sep t with
      | h :: r => (c :: h) :: r
      | [] => [[c]]

/-- Models `strings.Split` for the single-character separators the source
uses (splitting `"a.b"` on `'.'` gives `["a", "b"]`, `""` gives `[""]`). -/
def splitStr (s : String) (sep : Char) : List String :=
  (goSplit sep s.data).map (fun l => ⟨l⟩)

/-- Models `strings.TrimSpace`. -/
def trimSpace (s : String) : String :=
  ⟨((s.data.dropWhile Char.isWhitespace).reverse.dropWhile Char.isWhitespace).reverse⟩

/-- Models `strings.Contains`. -/
def strContains (s sub : String) : Bool := decide (sub.data <:+: s.data)

/-- Fuel-bounded worker for `replaceAll`: replace every leftmost,
non-overlapping occurrence of `pat` by `rep`.  The input's length is
sufficient fuel, so the `0` fallback is unreachable from `replaceAll`. -/
def goRepl (pat rep : List Char) (fuel : Nat) : List Char → List Char
  | [] => []
  | c :: t =>
    match fuel with
    | 0 => c :: t
    | fuel + 1 =>
      if pat.isPrefixOf (c :: t) then rep ++ goRepl pat rep fuel (t.drop (pat.length - 1))
      else c :: goRepl pat rep fuel t

/-- Models `strings.ReplaceAll` for the non-empty patterns the engine uses
(the placeholders always carry their `{{`/`}}` delimiters). -/
def replaceAll (s pat rep : String) : String :=
  ⟨goRepl pat.data rep.data s.data.length s.data⟩

/-- A decoded JSON value, the shape `encoding/json` produces into `any`:
`null`, booleans, numbers, strings, arrays and objects.  Go's `map[string]any`
is modelled as an association list with distinct keys (Go maps cannot hold
duplicate keys); lookup takes the first matching key. -/
inductive JSONValue where
  | null : JSONValue
  | bool : Bool → JSONValue
  | num : Int → JSONValue
  | str : String → JSONValue
  | arr : List JSONValue → JSONValue
  | obj : List (String × JSONValue) → JSONValue

/-- Key lookup in a decoded JSON object (models Go's `v[part]` map indexing). -/
def lookupKey (kvs : List (String × JSONValue)) (k : String) : Option JSONValue :=
  match kvs with
  | [] => none
  | (k', v) :: rest => if k' = k then some v else lookupKey rest k

/-- String-content escaping as performed by `json.Marshal` for the characters
the store's data exercises (quote, backslash, and common control characters);
`Marshal`'s additional `\uXXXX` escapes for other control characters and for
`<`, `>`, `&` never arise in the specified scenarios. -/
def escapeChar (c : Char) : String :=
  if c = '"' then "\\\""
  else if c = '\\' then "\\\\"
  else if c = '\n' then "\\n"
  else if c = '\r' then "\\r"
  else if c = '\t' then "\\t"
  else String.singleton c

/-- Escape every character of a string for JSON output. -/
def escapeString (s : String) : String := String.join (s.data.map escapeChar)

mutual

/-- Compact JSON encoding, the text `json.Marshal` produces (no added
whitespace).  Object fields are emitted in list order, standing for
`Marshal`'s sorted-key order over the underlying Go map. -/
def jsonEncode : JSONValue → String
  | .null => "null"
  | .bool true => "true"
  | .bool false => "false"
  | .num n => intToString n
  | .str s => "\"" ++ escapeString s ++ "\""
  | .arr xs => "[" ++ jsonEncodeItems xs ++ "]"
  | .obj kvs => "\x7b" ++ jsonEncodeFields kvs ++ "\x7d"

/-- Comma-separated encodings of array elements. -/
def jsonEncodeItems : List JSONValue → String
  | [] => ""
  | [x] => jsonEncode x
  | x :: y :: rest => jsonEncode x ++ "," ++ jsonEncodeItems (y :: rest)

/-- Comma-separated encodings of object fields. -/
def jsonEncodeFields : List (String × JSONValue) → String
  | [] => ""
  | [(k, v)] => "\"" ++ escapeString k ++ "\":" ++ jsonEncode v
  | (k, v) :: kv :: rest =>
      "\"" ++ escapeString k ++ "\":" ++ jsonEncode v ++ "," ++ jsonEncodeFields (kv :: rest)

end

/-- A `{key, value}` variable of an environment. -/
structure Variable where
  key : String
  value : String
  deriving DecidableEq

/-- An environment: named set of variables (`vars` models the source's
`Variables` field, which Lean reserves as a keyword). -/
structure Environment where
  id : String
  name : String
  vars : List Variable
  createdAt : String
  updatedAt : String
  deriving DecidableEq, Inhabited

/-- A request group. -/
structure Group where
  id : String
  name : String
  createdAt : String
  updatedAt : String
  deriving DecidableEq

/-- A recorded proxy response; only the fields the core logic reads are
carried (`body` is the union-typed string-or-JSON payload, a decoded
`JSONValue` where a plain-text body is `JSONValue.str`). -/
structure ProxyResponse where
  status : String
  statusCode : Int
  body : JSONValue

/-- A saved request.  The fields the core logic never reads (headers, params,
bodyType, description, timestamps, …) are elided; `body` and
`lastResponse.body` are the union-typed string-or-JSON payloads. -/
structure SavedRequest where
  id : String
  name : String
  url : String
  method : String
  body : JSONValue
  group : String
  lastResponse : Option ProxyResponse

/-- The whole persisted document (`SavedRequestsData` in the source). -/
structure SavedRequestsData where
  requests : List SavedRequest
  vars : List Variable
  environments : List Environment
  currentEnvironment : String
  groups : List Group
  wordWrap : Bool

/-- A parsed response variable reference (`RespVarRef` in the source). -/
structure RespVarRef where
  requestName : String
  fieldPath : String
  isResponse : Bool
  deriving DecidableEq

/-- Models `parseVariable`: parses response variable syntax such as
`{{"RequestName".field}}` or `{{\"RequestName\".field}}`.  The input includes
the `{{`/`}}` delimiters; failures are returned as `Except.error`. -/
def parseVariable (varStr : String) : Except String RespVarRef :=
  let v := varStr.data
  if ¬ ("\x7b\x7b".data.isPrefixOf v ∧ "\x7d\x7d".data.isSuffixOf v) then
    .error "invalid variable format"
  else
    -- content := strings.TrimSpace(variable[2 : len(variable)-2])
    let content := (trimSpace ⟨goSlice v 2 (v.length - 2)⟩).data
    if ['\\', '"'].isPrefixOf content then
      -- escaped quotes: find the closing \" via strings.Index(content[2:], "\\\".")
      match indexOfSubstr (content.drop 2) ['\\', '"', '.'] with
      | none => .error "unclosed escaped quote or missing field separator"
      | some endIndex =>
        let requestName := goSlice content 2 (endIndex + 2)
        let fieldPath := content.drop (endIndex + 4)
        if requestName = [] then .error "empty request name"
        else if fieldPath = [] then .error "empty field path"
        else .ok ⟨⟨requestName⟩, ⟨fieldPath⟩, (⟨fieldPath⟩ : String) = "response"⟩
    else if ['"'].isPrefixOf content then
      -- regular quotes: find the closing " via strings.Index(content[1:], "\".")
      match indexOfSubstr (content.drop 1) ['"', '.'] with
      | none => .error "unclosed quote or missing field separator"
      | some endIndex =>
        let requestName := goSlice content 1 (endIndex + 1)
        let fieldPath := content.drop (endIndex + 3)
        if requestName = [] then .error "empty request name"
        else if fieldPath = [] then .error "empty field path"
        else .ok ⟨⟨requestName⟩, ⟨fieldPath⟩, (⟨fieldPath⟩ : String) = "response"⟩
    else
      .error "not a response variable - doesn't start with quote"

/-- The result of extracting a JSON field (`JSONFieldResult` in the source). -/
structure JSONFieldResult where
  value : String
  isObject : Bool
  deriving DecidableEq

/-- Conversion of the navigation's final value (the `switch` at the end of
`extractJSONField`): strings pass through, `null` becomes `""`, objects and
arrays are JSON-encoded and flagged, other scalars are JSON-encoded unflagged. -/
def leafConvert : JSONValue → JSONFieldResult
  | .str s => ⟨s, false⟩
  | .null => ⟨"", false⟩
  | .obj kvs => ⟨jsonEncode (.obj kvs), true⟩
  | .arr xs => ⟨jsonEncode (.arr xs), true⟩
  | v => ⟨jsonEncode v, false⟩

/-- The navigation loop of `extractJSONField`: walk the dot-split segments,
skipping empty ones, descending into maps; a missing key or a non-map value
resolves to `("", false)` rather than an error. -/
def navLoop : JSONValue → List String → JSONFieldResult
  | current, [] => leafConvert current
  | current, part :: rest =>
    if part = "" then navLoop current rest
    else
      match current with
      | .obj kvs =>
        match lookupKey kvs part with
        | some v => navLoop v rest
        | none => ⟨"", false⟩
      | _ => ⟨"", false⟩

/-- Models `extractJSONField`: extracts a field from decoded JSON data using
dot notation.  The Go function's only error path is a `json.Marshal` failure,
which cannot occur on decoded JSON values, so the model is total. -/
def extractJSONField (data : JSONValue) (fieldPath : String) : JSONFieldResult :=
  match data with
  | .null => ⟨"", false⟩   -- the `data == nil` check
  | _ =>
    if fieldPath = "response" then
      match data with
      | .str s => ⟨s, false⟩
      | _ => ⟨jsonEncode data, true⟩
    else
      navLoop data (splitStr fieldPath '.')

/-- Models `loadRequest`: look up a saved request by exact name (the file load
inside the Go function is represented by passing the loaded document's
request list). -/
def loadRequest (requests : List SavedRequest) (requestName : String) :
    Option SavedRequest :=
  requests.find? (fun r => r.name = requestName)

/-- Models `resolveEnvVar`: resolve `$NAME` indirection against the OS
environment.  The environment itself is a partial map; `os.Getenv` returns
`""` for unset names, so a name set to the empty string is indistinguishable
from an unset one to this function. -/
def resolveEnvVar (env : String → Option String) (value : String) : String :=
  if "$".data.isPrefixOf value.data then
    let envValue := (env ⟨value.data.drop 1⟩).getD ""   -- os.Getenv
    if envValue ≠ "" then envValue else value
  else value

/-- Models `subJSONObject`: JSON-aware substitution of an object-valued
placeholder — if the quoted form `"` + placeholder + `"` occurs, replace the
whole quoted substring with the raw JSON, else plain-replace the bare
placeholder. -/
def subJSONObject (input placeholder jsonValue : String) : String :=
  let quotedPlaceholder := "\"" ++ placeholder ++ "\""
  if strContains input quotedPlaceholder then
    replaceAll input quotedPlaceholder jsonValue
  else
    replaceAll input placeholder jsonValue

/-- Models `processSubstitution`: resolve each response-reference match in
order against the loaded document's requests; parse failures, unknown request
names, absent `lastResponse` and extraction failures all skip the token. -/
def processSubstitution (input : String) (responseMatches : List String)
    (requests : List SavedRequest) : String :=
  responseMatches.foldl
    (fun result mtch =>
      match parseVariable mtch with
      | .error _ => result
      | .ok ref =>
        match loadRequest requests ref.requestName with
        | none => result
        | some request =>
          match request.lastResponse with
          | none => result
          | some lastResponse =>
            let fieldResult := extractJSONField lastResponse.body ref.fieldPath
            if fieldResult.isObject then
              subJSONObject result mtch fieldResult.value
            else
              replaceAll result mtch fieldResult.value)
    input

/-- Models `initEnv`: install a single fresh "Default" environment and make it
current.  `envId` stands for the `generateID()` call and `now` for the
formatted `time.Now()`. -/
def initEnv (envId now : String) (data : SavedRequestsData) : SavedRequestsData :=
  { data with
    environments := [⟨envId, "Default", [], now, now⟩],
    currentEnvironment := envId }

/-- Models `migrateVarsToEnvs`: build one "Default" environment holding the
legacy variables and make it current. -/
def migrateVarsToEnvs (envId now : String) (data : SavedRequestsData) :
    SavedRequestsData :=
  { data with
    environments := [⟨envId, "Default", data.vars, now, now⟩],
    currentEnvironment := envId }

/-- Models `migrateDefaultGroup`: assign `"default"` to every request whose
group is empty. -/
def migrateDefaultGroup (data : SavedRequestsData) : SavedRequestsData :=
  { data with
    requests := data.requests.map
      (fun r => if r.group = "" then { r with group := "default" } else r) }

/-- Models `migrateStringToJSON` on one union-typed body: a non-blank string
body that `parseJSON` decodes to a non-string value is replaced by the decoded
value.  `pj` stands for the source's `parseJSON` (a `json.Unmarshal` wrapper
that returns the original string on parse failure). -/
def migrateBody (pj : String → JSONValue) (body : JSONValue) : JSONValue :=
  match body with
  | .str s =>
    if trimSpace s ≠ "" then
      match pj s with
      | .str s' => .str s'   -- still a string: keep as-is
      | v => v
    else .str s
  | v => v

/-- Models `migrateStringToJSON`: migrate request and response bodies stored
as strings to parsed JSON values when possible. -/
def migrateStringToJSON (pj : String → JSONValue) (data : SavedRequestsData) :
    SavedRequestsData :=
  { data with
    requests := data.requests.map
      (fun r =>
        { r with
          body := migrateBody pj r.body,
          lastResponse := r.lastResponse.map
            (fun resp => { resp with body := migrateBody pj resp.body }) }) }

/-- Models `ensureDefaultGroup`: append a `"default"` group when none exists.
`groupId` stands for the `generateID()` call. -/
def ensureDefaultGroup (groupId now : String) (data : SavedRequestsData) :
    SavedRequestsData :=
  if data.groups.any (fun g => g.name = "default") then data
  else { data with groups := data.groups ++ [⟨groupId, "default", now, now⟩] }

/-- The candidate name tried by `dedupRequestNames` at a given counter:
the original name first, then `original (2)`, `original (3)`, …. -/
def candName (original : String) (counter : Nat) : String :=
  if counter = 1 then original
  else original ++ " (" ++ natToString counter ++ ")"

/-- The inner loop of `dedupRequestNames`: keep trying candidate names until
one is not yet seen.  The Go loop is unbounded; `fuel` bounds the recursion
and is chosen large enough that the fallback at `0` is unreachable. -/
def findAvailableName (seen : List String) (original : String) :
    Nat → Nat → String
  | 0, counter => candName original counter
  | fuel + 1, counter =>
    if candName original counter ∈ seen then
      findAvailableName seen original fuel (counter + 1)
    else candName original counter

/-- One step of `dedupRequestNames` over the request list, threading the set
of names already assigned. -/
def dedupGo (seen : List String) : List SavedRequest → List SavedRequest
  | [] => []
  | r :: rs =>
    let newName := findAvailableName seen r.name (seen.length + 2) 1
    { r with name := newName } :: dedupGo (newName :: seen) rs

/-- Models `dedupRequestNames`: make all request names unique by suffixing
` (2)`, ` (3)`, … to later duplicates.  The source also reports whether any
rename occurred (to trigger a corrective save); that flag does not affect the
returned document. -/
def dedupRequestNames (data : SavedRequestsData) : SavedRequestsData :=
  { data with requests := dedupGo [] data.requests }

/-- The state of the backing file as seen by one `loadRequests` call: the
file may be absent, unreadable, empty, unparsable, or parse to a document. -/
inductive LoadInput where
  | absent : LoadInput
  | readError : LoadInput
  | emptyFile : LoadInput
  | corrupt : String → LoadInput
  | parsed : SavedRequestsData → LoadInput

/-- An empty in-memory document, the zero value `loadRequests` starts from. -/
def emptyData : SavedRequestsData := ⟨[], [], [], "", [], false⟩

/-- Models `loadRequests`: read the backing file, synthesizing a fresh
document (one "Default" environment) when the file is absent, empty or
unparsable; on a parsed document apply the migrations in source order:
legacy-variable migration, environment synthesis, current-environment
defaulting, default-group creation, group backfill, string-body migration and
request-name deduplication.  The corrective save triggered by a rename and the
read/write locking have no effect on the returned document and are elided. -/
def loadRequests (input : LoadInput) (envId groupId now : String)
    (pj : String → JSONValue) : Except String SavedRequestsData :=
  match input with
  | .absent => .ok (initEnv envId now emptyData)
  | .readError => .error "failed to read requests file"
  | .emptyFile => .ok (initEnv envId now emptyData)
  | .corrupt _ => .ok (initEnv envId now emptyData)
  | .parsed d₀ =>
    let d₁ :=
      if d₀.vars ≠ [] ∧ d₀.environments = [] then migrateVarsToEnvs envId now d₀
      else d₀
    let d₂ := if d₁.environments = [] then initEnv envId now d₁ else d₁
    let d₃ :=
      if d₂.currentEnvironment = "" ∧ d₂.environments.length > 0 then
        { d₂ with currentEnvironment := d₂.environments.headI.id }
      else d₂
    let d₄ := ensureDefaultGroup groupId now d₃
    let d₅ := migrateDefaultGroup d₄
    let d₆ := migrateStringToJSON pj d₅
    .ok (dedupRequestNames d₆)

/-- The observable effect of one `saveSavedRequests` call: the final result,
the backoff pauses slept between failed rename attempts (in milliseconds),
and whether the temporary file was deleted at the end. -/
structure SaveTrace where
  result : Except String Unit
  backoffs : List Nat
  tempDeleted : Bool

/-- The retry loop of `saveSavedRequests` over the attempt numbers
`attempts`: each attempt removes the target (errors ignored) and renames the
temp file onto it; `renameOk a` tells whether attempt `a`'s rename succeeds.
A failed attempt below `maxRetries` sleeps `attempt × 50` ms. -/
def renameRetryLoop (renameOk : Nat → Bool) (maxRetries : Nat) :
    List Nat → Except String Unit × List Nat
  | [] =>
    (.error ("failed to save after " ++ natToString maxRetries ++
      " attempts - file may be locked by another process"), [])
  | attempt :: rest =>
    if renameOk attempt then (.ok (), [])
    else
      let (r, delays) := renameRetryLoop renameOk maxRetries rest
      (r, (if attempt < maxRetries then [attempt * 50] else []) ++ delays)

/-- Models `saveSavedRequests`: try the direct write first; on failure write
`<file>.tmp` and retry remove-then-rename up to 5 times with linear backoff,
deleting the temp file when every attempt fails.  `directOk` and `tempWriteOk`
stand for the success of `tryDirectWrite` and of writing the temp file;
`json.MarshalIndent` cannot fail on this data and is elided. -/
def saveSavedRequests (directOk tempWriteOk : Bool) (renameOk : Nat → Bool) :
    SaveTrace :=
  if directOk then ⟨.ok (), [], false⟩
  else if ¬ tempWriteOk then ⟨.error "failed to write temporary file", [], false⟩
  else
    let maxRetries := 5
    match renameRetryLoop renameOk maxRetries (List.range' 1 maxRetries) with
    | (.ok (), delays) => ⟨.ok (), delays, false⟩
    | (.error e, delays) => ⟨.error e, delays, true⟩

/-- Models the data transformation of the `deleteEnvironment` handler (the
load/save cycle around it is elided): refuse to delete the last environment,
remove every environment with the given id, and when the current environment
was deleted switch to the first remaining one.  The source indexes
`data.Environments[0]` unconditionally there; when the removal emptied the
list (duplicate ids) that indexing panics, modelled as an error. -/
def deleteEnvironment (data : SavedRequestsData) (envID : String) :
    Except String SavedRequestsData :=
  if envID = "" then .error "Environment ID is required"
  else if data.environments.length ≤ 1 then
    .error "Cannot delete the last environment"
  else
    let newEnvironments := data.environments.filter (fun e => e.id ≠ envID)
    if ¬ data.environments.any (fun e => e.id = envID) then
      .error "Environment not found"
    else if data.currentEnvironment = envID then
      match newEnvironments with
      | [] => .error "panic: index out of range"
      | e :: _ =>
        .ok { data with environments := newEnvironments,
                        currentEnvironment := e.id }
    else
      .ok { data with environments := newEnvironments }

/-- Models the data transformation of the `deleteGroup` handler (the
load/save cycle around it is elided): find the group by id, refuse to delete
the `"default"` group or a group still referenced by a request's `group`
field, and otherwise remove the first group with that id. -/
def deleteGroup (data : SavedRequestsData) (groupID : String) :
    Except String SavedRequestsData :=
  if groupID = "" then .error "Group ID is required"
  else
    match data.groups.find? (fun g => g.id = groupID) with
    | none => .error "Group not found"
    | some g =>
      if g.name = "default" then .error "Cannot delete default group"
      else if data.requests.any (fun r => r.group = g.name) then
        .error "Cannot delete group with requests"
      else
        .ok { data with groups := data.groups.eraseP (fun x => x.id = groupID) }

/-- The store's environment invariant: at least one environment exists and
`currentEnvironment` names one of them. -/
def EnvInvariant (data : SavedRequestsData) : Prop :=
  data.environments ≠ [] ∧
    ∃ e ∈ data.environments, e.id = data.currentEnvironment

/-- The field extractor as the specification words it (§4.3): split the path
on dots, drop empty segments, repeatedly descend into maps (a missing key or
a non-map value silently resolves to the empty string), and classify the
leaf: strings pass through, `null` becomes `""`, objects and arrays are
JSON-encoded and flagged as objects, other scalars are JSON-encoded
unflagged.  Written from the specification for comparison with
`extractJSONField`. -/
def extractFieldSpec (data : JSONValue) (fieldPath : String) : JSONFieldResult :=
  walk data ((splitStr fieldPath '.').filter (fun p => p ≠ ""))
where
  /-- Descend through the non-empty segments, then classify the leaf. -/
  walk : JSONValue → List String → JSONFieldResult
    | v, [] => leafConvert v
    | .obj kvs, p :: rest =>
      match lookupKey kvs p with
      | some v => walk v rest
      | none => ⟨"", false⟩
    | _, _ :: _ => ⟨"", false⟩

/-! ## Helper lemmas -/

theorem natDigitsAux_congr :
    ∀ f₁ f₂ n, n < f₁ → n < f₂ → natDigitsAux f₁ n = natDigitsAux f₂ n := by
  intro f₁
  induction f₁ with
  | zero => intro f₂ n h₁; omega
  | succ f ih =>
    intro f₂ n h₁ h₂
    cases f₂ with
    | zero => omega
    | succ f' =>
      simp only [natDigitsAux]
      by_cases h10 : n < 10
      · simp [h10]
      · have hdiv : n / 10 < n := Nat.div_lt_self (by omega) (by omega)
        simp only [h10, if_false]
        rw [ih f' (n / 10) (by omega) (by omega)]

theorem natDigits_eq (n : Nat) :
    natDigits n =
      if n < 10 then [digitChar n]
      else natDigits (n / 10) ++ [digitChar (n % 10)] := by
  show natDigitsAux (n + 1) n = _
  by_cases h10 : n < 10
  · simp only [natDigitsAux, if_pos h10]
  · have hdiv : n / 10 < n := Nat.div_lt_self (by omega) (by omega)
    simp only [natDigitsAux, if_neg h10]
    congr 1
    exact natDigitsAux_congr n (n / 10 + 1) (n / 10) (by omega) (by omega)

theorem natDigits_ne_nil (n : Nat) : natDigits n ≠ [] := by
  rw [natDigits_eq]
  split <;> simp

theorem digitChar_inj :
    ∀ a, a < 10 → ∀ b, b < 10 → digitChar a = digitChar b → a = b := by decide

theorem natDigits_inj :
    ∀ m n, natDigits m = natDigits n → m = n := by
  intro m
  induction m using Nat.strong_induction_on with
  | _ m ih =>
    intro n h
    rw [natDigits_eq m, natDigits_eq n] at h
    by_cases hm : m < 10 <;> by_cases hn : n < 10
    · simp only [hm, hn, if_true, List.cons.injEq] at h
      exact digitChar_inj m hm n hn h.1
    · simp only [hm, hn, if_true, if_false] at h
      have := congrArg List.length h
      simp at this
      exact absurd this.symm (fun hh => natDigits_ne_nil (n / 10) hh.symm)
    · simp only [hm, hn, if_true, if_false] at h
      have := congrArg List.length h
      simp at this
      exact absurd this (natDigits_ne_nil (m / 10))
    · simp only [hm, hn, if_false] at h
      rw [← List.concat_eq_append, ← List.concat_eq_append, List.concat_inj] at h
      have hmod : m % 10 = n % 10 :=
        digitChar_inj _ (Nat.mod_lt _ (by omega)) _ (Nat.mod_lt _ (by omega)) h.2
      have hdivlt : m / 10 < m := Nat.div_lt_self (by omega) (by omega)
      have hdiv : m / 10 = n / 10 := ih (m / 10) hdivlt (n / 10) h.1
      omega

theorem natToString_inj : ∀ m n, natToString m = natToString n → m = n := by
  intro m n h
  exact natDigits_inj m n (congrArg String.data h)

theorem candName_inj (o : String) :
    ∀ i j, 2 ≤ i → 2 ≤ j → candName o i = candName o j → i = j := by
  intro i j hi hj h
  simp only [candName] at h
  rw [if_neg (by omega), if_neg (by omega)] at h
  have hd := congrArg String.data h
  simp only [String.data_append] at hd
  have h₁ := List.append_cancel_right hd
  have h₂ := List.append_cancel_left h₁
  exact natToString_inj i j (String.ext h₂)

theorem exists_avail (seen : List String) (o : String) :
    ∃ c, 1 ≤ c ∧ c < 1 + (seen.length + 2) ∧ candName o c ∉ seen := by
  by_contra hcon
  push_neg at hcon
  have hall : ∀ c, 2 ≤ c → c ≤ seen.length + 2 → candName o c ∈ seen := by
    intro c h2 hle
    exact hcon c (by omega) (by omega)
  have hsub : (Finset.Icc 2 (seen.length + 2)).image (candName o) ⊆ seen.toFinset := by
    intro x hx
    simp only [Finset.mem_image, Finset.mem_Icc] at hx
    obtain ⟨c, ⟨h2, hle⟩, rfl⟩ := hx
    exact List.mem_toFinset.mpr (hall c h2 hle)
  have hcard : ((Finset.Icc 2 (seen.length + 2)).image (candName o)).card =
      seen.length + 1 := by
    rw [Finset.card_image_of_injOn, Nat.card_Icc]
    · omega
    · intro i hi j hj hij
      simp only [Finset.coe_Icc, Set.mem_Icc] at hi hj
      exact candName_inj o i j hi.1 hj.1 hij
  have hle := Finset.card_le_card hsub
  rw [hcard] at hle
  have := List.toFinset_card_le seen
  omega

theorem findAvailableName_not_mem (seen : List String) (o : String) :
    ∀ fuel counter,
      (∃ c, counter ≤ c ∧ c < counter + fuel ∧ candName o c ∉ seen) →
      findAvailableName seen o fuel counter ∉ seen := by
  intro fuel
  induction fuel with
  | zero =>
    intro counter h
    obtain ⟨c, h1, h2, _⟩ := h
    omega
  | succ f ih =>
    intro counter h
    simp only [findAvailableName]
    by_cases hmem : candName o counter ∈ seen
    · rw [if_pos hmem]
      apply ih
      obtain ⟨c, h1, h2, h3⟩ := h
      refine ⟨c, ?_, by omega, h3⟩
      rcases Nat.eq_or_lt_of_le h1 with heq | hlt
      · exact absurd (heq ▸ hmem) h3
      · omega
    · rw [if_neg hmem]
      exact hmem

theorem findAvailableName_fresh (seen : List String) (o : String) :
    findAvailableName seen o (seen.length + 2) 1 ∉ seen := by
  apply findAvailableName_not_mem
  obtain ⟨c, h1, h2, h3⟩ := exists_avail seen o
  exact ⟨c, by omega, by omega, h3⟩

theorem dedupGo_names :
    ∀ (rs : List SavedRequest) (seen : List String),
      (∀ x ∈ (dedupGo seen rs).map (fun r => r.name), x ∉ seen) ∧
      ((dedupGo seen rs).map (fun r => r.name)).Nodup := by
  intro rs
  induction rs with
  | nil => intro seen; simp [dedupGo]
  | cons r rest ih =>
    intro seen
    simp only [dedupGo, List.map_cons]
    set n := findAvailableName seen r.name (seen.length + 2) 1 with hn
    have hfresh : n ∉ seen := findAvailableName_fresh seen r.name
    obtain ⟨htl_seen, htl_nodup⟩ := ih (n :: seen)
    constructor
    · intro x hx
      rcases List.mem_cons.mp hx with rfl | hx'
      · exact hfresh
      · exact fun hmem => htl_seen x hx' (List.mem_cons_of_mem _ hmem)
    · refine List.nodup_cons.mpr ⟨?_, htl_nodup⟩
      intro hmem
      exact htl_seen n hmem (List.mem_cons_self _ _)

theorem navLoop_eq_walk :
    ∀ (parts : List String) (v : JSONValue),
      navLoop v parts = extractFieldSpec.walk v (parts.filter (fun p => p ≠ "")) := by
  intro parts
  induction parts with
  | nil => intro v; cases v <;> rfl
  | cons part rest ih =>
    intro v
    by_cases hp : part = ""
    · subst hp
      have hf : List.filter (fun p => decide (p ≠ "")) ("" :: rest) =
          List.filter (fun p => decide (p ≠ "")) rest := by
        simp
      simp only [navLoop, if_pos rfl, hf]
      exact ih v
    · have hf : List.filter (fun p => decide (p ≠ "")) (part :: rest) =
          part :: List.filter (fun p => decide (p ≠ "")) rest := by
        simp [hp]
      simp only [navLoop, if_neg hp, hf]
      cases v with
      | obj kvs =>
        simp only [extractFieldSpec.walk]
        cases lookupKey kvs part with
        | none => rfl
        | some w => exact ih w
      | null => rfl
      | bool b => rfl
      | num n => rfl
      | str s => rfl
      | arr xs => rfl

/-! ## Claim theorems -/

/-- Claim C6: whenever the backing file is absent, zero-length, or contains
unparsable JSON (any `raw` text), `loadRequests` returns no error and yields a
freshly synthesized document: no requests, exactly one environment named
`"Default"` whose id (`envId`, the generated id) is the `currentEnvironment`,
discarding any prior unparsable content rather than failing. -/
theorem load_recovers_with_fresh_document
    (raw envId groupId now : String) (pj : String → JSONValue) :
    loadRequests .absent envId groupId now pj =
      .ok ⟨[], [], [⟨envId, "Default", [], now, now⟩], envId, [], false⟩ ∧
    loadRequests .emptyFile envId groupId now pj =
      .ok ⟨[], [], [⟨envId, "Default", [], now, now⟩], envId, [], false⟩ ∧
    loadRequests (.corrupt raw) envId groupId now pj =
      .ok ⟨[], [], [⟨envId, "Default", [], now, now⟩], envId, [], false⟩ :=
  ⟨rfl, rfl, rfl⟩

/-- Claim C2 (code bug): for the escaped-quote form, `parseVariable` skips only
two of the three terminator characters (`content[endIndex+4:]` instead of
`content[endIndex+5:]`, despite the `// Skip past \".` comment), so the
returned `fieldPath` retains the leading dot: `{{\"A\".token}}` parses to
fieldPath `".token"` rather than `"token"`, and `{{\"A\".response}}` parses to
fieldPath `".response"` with `isResponse = false` instead of `true`.  The
claimed rejection of an empty fieldPath is likewise unreachable in this
branch: `{{\"A\".}}` is accepted with fieldPath `"."`. -/
theorem parseVariable_escaped_quote_off_by_one :
    parseVariable "\x7b\x7b\\\"A\\\".token\x7d\x7d" = .ok ⟨"A", ".token", false⟩ ∧
    parseVariable "\x7b\x7b\\\"A\\\".response\x7d\x7d" = .ok ⟨"A", ".response", false⟩ ∧
    parseVariable "\x7b\x7b\\\"A\\\".\x7d\x7d" = .ok ⟨"A", ".", false⟩ :=
  ⟨rfl, rfl, rfl⟩

/-- Claim C3: for every recorded response body and every fieldPath other than
`"response"`, `extractJSONField` agrees with the specification's description
(`extractFieldSpec`): missing keys and descents into non-maps resolve to
`("", false)` with no error, string leaves pass through unflagged, `null`
yields `""`, objects and arrays are JSON-encoded with `isObject = true`, and
other scalars (numbers, booleans) are JSON-encoded with `isObject = false`. -/
theorem extractJSONField_matches_spec (data : JSONValue) (path : String)
    (h : path ≠ "response") :
    extractJSONField data path = extractFieldSpec data path := by
  cases data with
  | null =>
    show (⟨"", false⟩ : JSONFieldResult) = extractFieldSpec .null path
    unfold extractFieldSpec
    cases hf : (splitStr path '.').filter (fun p => p ≠ "") with
    | nil => rfl
    | cons a l => rfl
  | bool b => simp only [extractJSONField, if_neg h, extractFieldSpec, navLoop_eq_walk]
  | num n => simp only [extractJSONField, if_neg h, extractFieldSpec, navLoop_eq_walk]
  | str s => simp only [extractJSONField, if_neg h, extractFieldSpec, navLoop_eq_walk]
  | arr xs => simp only [extractJSONField, if_neg h, extractFieldSpec, navLoop_eq_walk]
  | obj kvs => simp only [extractJSONField, if_neg h, extractFieldSpec, navLoop_eq_walk]

/-- Witness for C3 at the specification's example body
`{"token":"abc","nested":{"x":5}}` and path `"nested.x"` (plus a missing key):
the extractor agrees with the specification's description, and the concrete
results are `("5", false)` and `("", false)`. -/
theorem extractJSONField_matches_spec_witness :
    ("nested.x" ≠ "response" ∧
      extractJSONField
        (.obj [("token", .str "abc"), ("nested", .obj [("x", .num 5)])]) "nested.x" =
      extractFieldSpec
        (.obj [("token", .str "abc"), ("nested", .obj [("x", .num 5)])]) "nested.x") ∧
    ("missing" ≠ "response" ∧
      extractJSONField
        (.obj [("token", .str "abc"), ("nested", .obj [("x", .num 5)])]) "missing" =
      extractFieldSpec
        (.obj [("token", .str "abc"), ("nested", .obj [("x", .num 5)])]) "missing") ∧
    extractJSONField
      (.obj [("token", .str "abc"), ("nested", .obj [("x", .num 5)])]) "nested.x" =
      ⟨"5", false⟩ ∧
    extractJSONField
      (.obj [("token", .str "abc"), ("nested", .obj [("x", .num 5)])]) "missing" =
      ⟨"", false⟩ :=
  ⟨⟨by decide,
    extractJSONField_matches_spec
      (.obj [("token", .str "abc"), ("nested", .obj [("x", .num 5)])]) "nested.x"
      (by decide)⟩,
   ⟨by decide,
    extractJSONField_matches_spec
      (.obj [("token", .str "abc"), ("nested", .obj [("x", .num 5)])]) "missing"
      (by decide)⟩,
   by decide, by decide⟩

/-- Claim C10 (counterexample): the claim quantifies over every fieldPath not
equal to `"response"`, but removing the empty segment of the path
`"response."` produces exactly the path `"response"`, which takes the
full-response branch: on the body `{"response":"x"}` the former extracts the
field (`("x", false)`), the latter encodes the whole body
(`("{\"response\":\"x\"}", true)`), so the results differ although the two
paths differ only by an empty segment. -/
theorem extract_empty_segment_response_boundary :
    "response." ≠ "response" ∧
    (splitStr "response." '.').filter (fun p => p ≠ "") =
      (splitStr "response" '.').filter (fun p => p ≠ "") ∧
    extractJSONField (.obj [("response", .str "x")]) "response." ≠
      extractJSONField (.obj [("response", .str "x")]) "response" :=
  ⟨by decide, by decide, by decide⟩

/-- Claim C10 (amended): inserting or removing empty segments in a fieldPath
does not change the extraction result, provided both the original and the
modified path are different from the literal path `"response"` (which takes
the full-response branch instead of navigating). -/
theorem extract_ignores_empty_segments (data : JSONValue) (p q : String)
    (hp : p ≠ "response") (hq : q ≠ "response")
    (h : (splitStr p '.').filter (fun s => s ≠ "") =
      (splitStr q '.').filter (fun s => s ≠ "")) :
    extractJSONField data p = extractJSONField data q := by
  cases data with
  | null => rfl
  | bool b => simp only [extractJSONField, if_neg hp, if_neg hq, navLoop_eq_walk, h]
  | num n => simp only [extractJSONField, if_neg hp, if_neg hq, navLoop_eq_walk, h]
  | str s => simp only [extractJSONField, if_neg hp, if_neg hq, navLoop_eq_walk, h]
  | arr xs => simp only [extractJSONField, if_neg hp, if_neg hq, navLoop_eq_walk, h]
  | obj kvs => simp only [extractJSONField, if_neg hp, if_neg hq, navLoop_eq_walk, h]

/-- Witness for the amended C10: on a concrete body, the paths `".a.b"`,
`"a..b"`, `"a.b."` all extract the same result as `"a.b"`. -/
theorem extract_ignores_empty_segments_witness :
    extractJSONField (.obj [("a", .obj [("b", .str "z")])]) ".a.b" =
      extractJSONField (.obj [("a", .obj [("b", .str "z")])]) "a.b" ∧
    extractJSONField (.obj [("a", .obj [("b", .str "z")])]) "a..b" =
      extractJSONField (.obj [("a", .obj [("b", .str "z")])]) "a.b" ∧
    extractJSONField (.obj [("a", .obj [("b", .str "z")])]) "a.b." =
      extractJSONField (.obj [("a", .obj [("b", .str "z")])]) "a.b" :=
  ⟨extract_ignores_empty_segments _ ".a.b" "a.b" (by decide) (by decide) (by decide),
   extract_ignores_empty_segments _ "a..b" "a.b" (by decide) (by decide) (by decide),
   extract_ignores_empty_segments _ "a.b." "a.b" (by decide) (by decide) (by decide)⟩

/-- Claim C8 (counterexample): an OS environment variable that is set to the
empty string is set, yet `resolveEnvVar` (which reads it through `os.Getenv`
and tests for `""`) returns the original `"$MY_TOKEN"` instead of the set
value `""`. -/
theorem resolveEnvVar_set_empty_value :
    (fun n => if n = "MY_TOKEN" then some "" else none) "MY_TOKEN" = some "" ∧
    resolveEnvVar (fun n => if n = "MY_TOKEN" then some "" else none) "$MY_TOKEN" =
      "$MY_TOKEN" ∧
    ("$MY_TOKEN" : String) ≠ "" :=
  ⟨by decide, by decide, by decide⟩

/-- Claim C8 (amended): resolution never returns an error (the function is
total); if the stored value starts with `"$"`, the remainder is looked up as
an OS environment variable name and that variable's value is returned if it
is set to a non-empty value; otherwise (the variable is unset, is set to the
empty string, or the value does not start with `"$"`) the original stored
string is returned unchanged. -/
theorem resolveEnvVar_characterization (env : String → Option String)
    (value : String) :
    (¬ "$".data.isPrefixOf value.data → resolveEnvVar env value = value) ∧
    (∀ v, "$".data.isPrefixOf value.data → env ⟨value.data.drop 1⟩ = some v →
      v ≠ "" → resolveEnvVar env value = v) ∧
    ("$".data.isPrefixOf value.data →
      (env ⟨value.data.drop 1⟩ = none ∨ env ⟨value.data.drop 1⟩ = some "") →
      resolveEnvVar env value = value) := by
  refine ⟨?_, ?_, ?_⟩
  · intro hpre
    simp only [resolveEnvVar]
    rw [if_neg (by simpa using hpre)]
  · intro v hpre henv hv
    simp only [resolveEnvVar]
    rw [if_pos (by simpa using hpre), henv]
    simp only [Option.getD_some]
    rw [if_pos hv]
  · intro hpre henv
    simp only [resolveEnvVar]
    rw [if_pos (by simpa using hpre)]
    rcases henv with henv | henv <;> rw [henv] <;> simp

/-- Witness for the amended C8 at the specification's example: with
`MY_TOKEN` set to `"secret"`, the stored value `"$MY_TOKEN"` resolves to
`"secret"`; with it unset, `"$MY_TOKEN"` resolves to itself; a plain literal
resolves to itself. -/
theorem resolveEnvVar_characterization_witness :
    resolveEnvVar (fun n => if n = "MY_TOKEN" then some "secret" else none)
      "$MY_TOKEN" = "secret" ∧
    resolveEnvVar (fun _ => none) "$MY_TOKEN" = "$MY_TOKEN" ∧
    resolveEnvVar (fun n => if n = "MY_TOKEN" then some "secret" else none)
      "literal" = "literal" :=
  ⟨(resolveEnvVar_characterization
      (fun n => if n = "MY_TOKEN" then some "secret" else none) "$MY_TOKEN").2.1
      "secret" (by decide) (by decide) (by decide),
   (resolveEnvVar_characterization (fun _ => none) "$MY_TOKEN").2.2
      (by decide) (Or.inl rfl),
   (resolveEnvVar_characterization
      (fun n => if n = "MY_TOKEN" then some "secret" else none) "literal").1
      (by decide)⟩

/-- Claim C1: in `processSubstitution`, every resolved response-reference
token (parse succeeded, the named request exists, it has a recorded
`lastResponse`, and the field extracted) is substituted as follows before the
remaining tokens are processed: if the extracted value is flagged as a JSON
object/array, then when the quoted substring `"` + token + `"` occurs in the
current input that whole quoted substring is replaced by the raw extracted
JSON, and otherwise the bare token is plainly replaced by the extracted text;
a value not flagged as an object is always plainly replaced. -/
theorem processSubstitution_json_aware_splice
    (input mtch : String) (rest : List String) (requests : List SavedRequest)
    (ref : RespVarRef) (request : SavedRequest) (lastResponse : ProxyResponse)
    (hparse : parseVariable mtch = .ok ref)
    (hload : loadRequest requests ref.requestName = some request)
    (hresp : request.lastResponse = some lastResponse) :
    ((extractJSONField lastResponse.body ref.fieldPath).isObject = true →
      processSubstitution input (mtch :: rest) requests =
        processSubstitution
          (if strContains input ("\"" ++ mtch ++ "\"") then
            replaceAll input ("\"" ++ mtch ++ "\"")
              (extractJSONField lastResponse.body ref.fieldPath).value
          else
            replaceAll input mtch
              (extractJSONField lastResponse.body ref.fieldPath).value)
          rest requests) ∧
    ((extractJSONField lastResponse.body ref.fieldPath).isObject = false →
      processSubstitution input (mtch :: rest) requests =
        processSubstitution
          (replaceAll input mtch
            (extractJSONField lastResponse.body ref.fieldPath).value)
          rest requests) := by
  constructor <;> intro hobj <;>
    simp only [processSubstitution, List.foldl_cons, hparse, hload, hresp,
      subJSONObject, hobj, if_true, if_false, Bool.false_eq_true]

/-- Witness for C1 at the specification's splice example: request `A` has
`lastResponse.body = {"obj":{"k":1}}`; the quoted token inside a JSON body is
replaced by the raw object (`{"x": "{{\"A\".obj}}"}` becomes
`{"x": {"k":1}}`), while the unquoted occurrence is replaced as literal text
(`x={{\"A\".obj}}` becomes `x={"k":1}`). -/
theorem processSubstitution_json_aware_splice_witness :
    processSubstitution "\x7b\"x\": \"\x7b\x7b\\\"A\\\".obj\x7d\x7d\"\x7d" ["\x7b\x7b\\\"A\\\".obj\x7d\x7d"]
      [⟨"id1", "A", "", "GET", .null, "default",
        some ⟨"200 OK", 200, .obj [("obj", .obj [("k", .num 1)])]⟩⟩] =
      "\x7b\"x\": \x7b\"k\":1\x7d\x7d" ∧
    processSubstitution "x=\x7b\x7b\\\"A\\\".obj\x7d\x7d" ["\x7b\x7b\\\"A\\\".obj\x7d\x7d"]
      [⟨"id1", "A", "", "GET", .null, "default",
        some ⟨"200 OK", 200, .obj [("obj", .obj [("k", .num 1)])]⟩⟩] =
      "x=\x7b\"k\":1\x7d" := by
  have h₁ := (processSubstitution_json_aware_splice
    "\x7b\"x\": \"\x7b\x7b\\\"A\\\".obj\x7d\x7d\"\x7d" "\x7b\x7b\\\"A\\\".obj\x7d\x7d" []
    [⟨"id1", "A", "", "GET", .null, "default",
      some ⟨"200 OK", 200, .obj [("obj", .obj [("k", .num 1)])]⟩⟩]
    ⟨"A", ".obj", false⟩
    ⟨"id1", "A", "", "GET", .null, "default",
      some ⟨"200 OK", 200, .obj [("obj", .obj [("k", .num 1)])]⟩⟩
    ⟨"200 OK", 200, .obj [("obj", .obj [("k", .num 1)])]⟩
    rfl rfl rfl).1 rfl
  have h₂ := (processSubstitution_json_aware_splice
    "x=\x7b\x7b\\\"A\\\".obj\x7d\x7d" "\x7b\x7b\\\"A\\\".obj\x7d\x7d" []
    [⟨"id1", "A", "", "GET", .null, "default",
      some ⟨"200 OK", 200, .obj [("obj", .obj [("k", .num 1)])]⟩⟩]
    ⟨"A", ".obj", false⟩
    ⟨"id1", "A", "", "GET", .null, "default",
      some ⟨"200 OK", 200, .obj [("obj", .obj [("k", .num 1)])]⟩⟩
    ⟨"200 OK", 200, .obj [("obj", .obj [("k", .num 1)])]⟩
    rfl rfl rfl).1 rfl
  exact ⟨h₁.trans (by decide), h₂.trans (by decide)⟩

/-- Claim C9: `deleteGroup`, applied where the id resolves to group `g`,
fails when `g` is named `"default"`, fails when any request's `group` field
references `g.name`, and for an existing, unreferenced, non-default group
succeeds, removing exactly that group and leaving the requests and the other
groups (and all other document fields) unchanged. -/
theorem deleteGroup_guards (data : SavedRequestsData) (groupID : String)
    (g : Group) (hid : groupID ≠ "")
    (hfind : data.groups.find? (fun x => x.id = groupID) = some g) :
    (g.name = "default" →
      deleteGroup data groupID = .error "Cannot delete default group") ∧
    (g.name ≠ "default" → (∃ r ∈ data.requests, r.group = g.name) →
      deleteGroup data groupID = .error "Cannot delete group with requests") ∧
    (g.name ≠ "default" → (∀ r ∈ data.requests, r.group ≠ g.name) →
      deleteGroup data groupID =
        .ok { data with groups := data.groups.eraseP (fun x => x.id = groupID) }) := by
  refine ⟨?_, ?_, ?_⟩
  · intro hdef
    simp only [deleteGroup, if_neg hid, hfind]
    rw [if_pos hdef]
  · intro hdef href
    simp only [deleteGroup, if_neg hid, hfind]
    rw [if_neg hdef, if_pos ?_]
    obtain ⟨r, hr, hrg⟩ := href
    exact List.any_eq_true.mpr ⟨r, hr, by simpa using hrg⟩
  · intro hdef href
    simp only [deleteGroup, if_neg hid, hfind]
    rw [if_neg hdef, if_neg ?_]
    intro hany
    obtain ⟨r, hr, hrg⟩ := List.any_eq_true.mp hany
    exact href r hr (by simpa using hrg)

/-- Witness for C9 on a concrete store with groups `default` and `extra` and
one request in `default`: deleting `default` fails, deleting a referenced
group fails, deleting the unreferenced `extra` group succeeds and removes
exactly it. -/
theorem deleteGroup_guards_witness :
    deleteGroup
      ⟨[⟨"r1", "R", "", "GET", .null, "default", none⟩], [], [], "",
        [⟨"g1", "default", "", ""⟩, ⟨"g2", "extra", "", ""⟩], false⟩ "g1" =
      .error "Cannot delete default group" ∧
    deleteGroup
      ⟨[⟨"r1", "R", "", "GET", .null, "used", none⟩], [], [], "",
        [⟨"g1", "default", "", ""⟩, ⟨"g3", "used", "", ""⟩], false⟩ "g3" =
      .error "Cannot delete group with requests" ∧
    deleteGroup
      ⟨[⟨"r1", "R", "", "GET", .null, "default", none⟩], [], [], "",
        [⟨"g1", "default", "", ""⟩, ⟨"g2", "extra", "", ""⟩], false⟩ "g2" =
      .ok ⟨[⟨"r1", "R", "", "GET", .null, "default", none⟩], [], [], "",
        [⟨"g1", "default", "", ""⟩], false⟩ := by
  refine ⟨?_, ?_, ?_⟩
  · exact (deleteGroup_guards
      ⟨[⟨"r1", "R", "", "GET", .null, "default", none⟩], [], [], "",
        [⟨"g1", "default", "", ""⟩, ⟨"g2", "extra", "", ""⟩], false⟩
      "g1" ⟨"g1", "default", "", ""⟩ (by decide) rfl).1 rfl
  · exact (deleteGroup_guards
      ⟨[⟨"r1", "R", "", "GET", .null, "used", none⟩], [], [], "",
        [⟨"g1", "default", "", ""⟩, ⟨"g3", "used", "", ""⟩], false⟩
      "g3" ⟨"g3", "used", "", ""⟩ (by decide) rfl).2.1 (by decide)
      ⟨⟨"r1", "R", "", "GET", .null, "used", none⟩, by simp, rfl⟩
  · exact ((deleteGroup_guards
      ⟨[⟨"r1", "R", "", "GET", .null, "default", none⟩], [], [], "",
        [⟨"g1", "default", "", ""⟩, ⟨"g2", "extra", "", ""⟩], false⟩
      "g2" ⟨"g2", "extra", "", ""⟩ (by decide) rfl).2.2 (by decide)
      (by intro r hr; simp at hr; subst hr; decide)).trans (by rfl)

/-- Claim C7: when the direct write fails (and the temp-file write succeeds),
`saveSavedRequests` retries the remove-then-rename step up to 5 times: if some
attempt at most the 5th succeeds the save returns no error; if all 5 attempts
fail the temp file is deleted and the returned error names the attempt count
5; and the pauses slept between failed attempts are exactly `attempt × 50` ms
for each failed attempt below the 5th (linearly increasing backoff). -/
theorem save_fallback_retries (renameOk : Nat → Bool) :
    ((∃ k, 1 ≤ k ∧ k ≤ 5 ∧ renameOk k = true) →
      (saveSavedRequests false true renameOk).result = .ok ()) ∧
    ((∀ k, 1 ≤ k → k ≤ 5 → renameOk k = false) →
      (saveSavedRequests false true renameOk).result =
        .error "failed to save after 5 attempts - file may be locked by another process" ∧
      (saveSavedRequests false true renameOk).tempDeleted = true) ∧
    (saveSavedRequests false true renameOk).backoffs =
      (((List.range' 1 4).takeWhile (fun a => ! renameOk a)).map (fun a => a * 50)) := by
  refine ⟨?_, ?_, ?_⟩
  · rintro ⟨k, hk1, hk5, hk⟩
    interval_cases k <;>
      cases h1 : renameOk 1 <;> cases h2 : renameOk 2 <;> cases h3 : renameOk 3 <;>
        cases h4 : renameOk 4 <;> cases h5 : renameOk 5 <;>
      simp_all [saveSavedRequests, renameRetryLoop, List.range']
  · intro hall
    have h1 := hall 1 (by omega) (by omega)
    have h2 := hall 2 (by omega) (by omega)
    have h3 := hall 3 (by omega) (by omega)
    have h4 := hall 4 (by omega) (by omega)
    have h5 := hall 5 (by omega) (by omega)
    constructor <;>
      simp [saveSavedRequests, renameRetryLoop, List.range', h1, h2, h3, h4, h5,
        natToString, natDigits, natDigitsAux, digitChar]
  · cases h1 : renameOk 1 <;> cases h2 : renameOk 2 <;> cases h3 : renameOk 3 <;>
      cases h4 : renameOk 4 <;> cases h5 : renameOk 5 <;>
      simp [saveSavedRequests, renameRetryLoop, List.range', List.takeWhile,
        h1, h2, h3, h4, h5]

/-- Witness for C7: with the rename failing twice then succeeding on the 3rd
attempt the save succeeds with backoffs 50 ms and 100 ms; with the rename
always failing the save errors after 5 attempts, deletes the temp file, and
slept 50/100/150/200 ms between the failed attempts. -/
theorem save_fallback_retries_witness :
    (saveSavedRequests false true (fun a => a == 3)).result = .ok () ∧
    (saveSavedRequests false true (fun a => a == 3)).backoffs = [50, 100] ∧
    (saveSavedRequests false true (fun _ => false)).result =
      .error "failed to save after 5 attempts - file may be locked by another process" ∧
    (saveSavedRequests false true (fun _ => false)).tempDeleted = true ∧
    (saveSavedRequests false true (fun _ => false)).backoffs = [50, 100, 150, 200] := by
  refine ⟨?_, ?_, ?_, ?_, ?_⟩
  · exact (save_fallback_retries (fun a => a == 3)).1 ⟨3, by omega, by omega, rfl⟩
  · exact ((save_fallback_retries (fun a => a == 3)).2.2).trans (by decide)
  · exact ((save_fallback_retries (fun _ => false)).2.1 (fun k _ _ => rfl)).1
  · exact ((save_fallback_retries (fun _ => false)).2.1 (fun k _ _ => rfl)).2
  · exact ((save_fallback_retries (fun _ => false)).2.2).trans (by decide)

theorem ensureDefaultGroup_environments (groupId now : String)
    (d : SavedRequestsData) :
    (ensureDefaultGroup groupId now d).environments = d.environments := by
  unfold ensureDefaultGroup; split <;> rfl

theorem ensureDefaultGroup_currentEnvironment (groupId now : String)
    (d : SavedRequestsData) :
    (ensureDefaultGroup groupId now d).currentEnvironment =
      d.currentEnvironment := by
  unfold ensureDefaultGroup; split <;> rfl

/-- Claim C4: after `loadRequests` completes (including the name-deduplication
repair that suffixes ` (2)`, ` (3)`, …), no two requests in the returned
document share a case-sensitive name, for every input document — regardless of
how many duplicates or pre-existing suffixed names it contains. -/
theorem load_request_names_unique (input : LoadInput)
    (envId groupId now : String) (pj : String → JSONValue)
    (doc : SavedRequestsData)
    (h : loadRequests input envId groupId now pj = .ok doc) :
    (doc.requests.map (fun r => r.name)).Nodup := by
  cases input with
  | absent => injection h with h; subst h; simp [initEnv, emptyData]
  | readError => exact absurd h (by simp [loadRequests])
  | emptyFile => injection h with h; subst h; simp [initEnv, emptyData]
  | corrupt raw => injection h with h; subst h; simp [initEnv, emptyData]
  | parsed d₀ =>
    simp only [loadRequests] at h
    injection h with h
    subst h
    exact (dedupGo_names _ []).2

/-- Witness for C4: a stored document with three requests all named `"A"`
loads successfully (the duplicates become `"A (2)"` and `"A (3)"`), and the
loaded document's request names are unique. -/
theorem load_request_names_unique_witness :
    loadRequests
      (.parsed ⟨[⟨"i1", "A", "", "GET", .null, "default", none⟩,
                 ⟨"i2", "A", "", "GET", .null, "default", none⟩,
                 ⟨"i3", "A", "", "GET", .null, "default", none⟩], [],
        [⟨"e1", "Default", [], "", ""⟩], "e1",
        [⟨"g1", "default", "", ""⟩], false⟩)
      "x" "g" "t" (fun s => .str s) =
      .ok ⟨[⟨"i1", "A", "", "GET", .null, "default", none⟩,
            ⟨"i2", "A (2)", "", "GET", .null, "default", none⟩,
            ⟨"i3", "A (3)", "", "GET", .null, "default", none⟩], [],
        [⟨"e1", "Default", [], "", ""⟩], "e1",
        [⟨"g1", "default", "", ""⟩], false⟩ ∧
    (([⟨"i1", "A", "", "GET", .null, "default", none⟩,
       ⟨"i2", "A (2)", "", "GET", .null, "default", none⟩,
       ⟨"i3", "A (3)", "", "GET", .null, "default", none⟩] :
        List SavedRequest).map (fun r => r.name)).Nodup :=
  ⟨rfl,
   load_request_names_unique
    (.parsed ⟨[⟨"i1", "A", "", "GET", .null, "default", none⟩,
               ⟨"i2", "A", "", "GET", .null, "default", none⟩,
               ⟨"i3", "A", "", "GET", .null, "default", none⟩], [],
      [⟨"e1", "Default", [], "", ""⟩], "e1",
      [⟨"g1", "default", "", ""⟩], false⟩)
    "x" "g" "t" (fun s => .str s)
    ⟨[⟨"i1", "A", "", "GET", .null, "default", none⟩,
      ⟨"i2", "A (2)", "", "GET", .null, "default", none⟩,
      ⟨"i3", "A (3)", "", "GET", .null, "default", none⟩], [],
      [⟨"e1", "Default", [], "", ""⟩], "e1",
      [⟨"g1", "default", "", ""⟩], false⟩ rfl⟩

/-- Claim C5 (counterexample): `loadRequests` repairs `currentEnvironment`
only when it is the empty string — a stored document whose
`currentEnvironment` is the dangling id `"zzz"` (naming no environment) loads
with the dangling id intact, so the loaded document violates the claimed
invariant that `currentEnvironment` names an existing environment. -/
theorem load_keeps_dangling_current_environment :
    loadRequests
      (.parsed ⟨[], [], [⟨"e1", "Default", [], "", ""⟩], "zzz", [], false⟩)
      "x" "g" "t" (fun s => .str s) =
      .ok ⟨[], [], [⟨"e1", "Default", [], "", ""⟩], "zzz",
        [⟨"g", "default", "t", "t"⟩], false⟩ ∧
    ¬ EnvInvariant ⟨[], [], [⟨"e1", "Default", [], "", ""⟩], "zzz",
        [⟨"g", "default", "t", "t"⟩], false⟩ :=
  ⟨rfl, by
    intro hinv
    obtain ⟨-, e, he, hid⟩ := hinv
    simp only [List.mem_singleton] at he
    subst he
    exact absurd hid (by decide)⟩

theorem headI_mem_self {α : Type} [Inhabited α] {l : List α} (h : l ≠ []) :
    l.headI ∈ l := by
  cases l with
  | nil => exact absurd rfl h
  | cons a t => exact List.mem_cons_self a t

theorem loadStep3_environments (d₂ : SavedRequestsData) :
    (if d₂.currentEnvironment = "" ∧ 0 < d₂.environments.length then
        { d₂ with currentEnvironment := d₂.environments.headI.id }
      else d₂).environments = d₂.environments := by
  split <;> rfl

theorem loadStep2_environments_ne (envId now : String) (d₁ : SavedRequestsData) :
    (if d₁.environments = [] then initEnv envId now d₁ else d₁).environments ≠
      [] := by
  split
  · simp [initEnv]
  · exact ‹¬ _›

/-- Claim C5 (amended): the document returned by `loadRequests` always has a
non-empty environments list, and its `currentEnvironment` names an existing
environment whenever the stored document's environments were empty, or its
stored `currentEnvironment` was empty (the only case the load repairs), or it
already named a stored environment — a non-empty dangling id is left
unrepaired.  `deleteEnvironment` rejects deleting the last remaining
environment, and whenever it succeeds on a document satisfying the invariant
the result still satisfies it; deleting the current environment switches
`currentEnvironment` to a remaining (hence existing, non-deleted) one. -/
theorem environment_invariant_load_delete (input : LoadInput)
    (envId groupId now : String) (pj : String → JSONValue)
    (doc : SavedRequestsData)
    (h : loadRequests input envId groupId now pj = .ok doc) :
    (doc.environments ≠ [] ∧
      ((∀ d, input = .parsed d →
          d.environments = [] ∨ d.currentEnvironment = "" ∨
            ∃ e ∈ d.environments, e.id = d.currentEnvironment) →
        EnvInvariant doc)) ∧
    (∀ (d : SavedRequestsData) (envID : String),
      (d.environments.length ≤ 1 → ∀ d', deleteEnvironment d envID ≠ .ok d') ∧
      (EnvInvariant d → ∀ d', deleteEnvironment d envID = .ok d' →
        EnvInvariant d' ∧
          (d.currentEnvironment = envID → d'.currentEnvironment ≠ envID))) := by
  constructor
  · cases input with
    | absent =>
      injection h with h; subst h
      exact ⟨by simp [initEnv, emptyData], fun _ =>
        ⟨by simp [initEnv, emptyData],
         ⟨⟨envId, "Default", [], now, now⟩, by simp [initEnv, emptyData], rfl⟩⟩⟩
    | readError => exact absurd h (by simp [loadRequests])
    | emptyFile =>
      injection h with h; subst h
      exact ⟨by simp [initEnv, emptyData], fun _ =>
        ⟨by simp [initEnv, emptyData],
         ⟨⟨envId, "Default", [], now, now⟩, by simp [initEnv, emptyData], rfl⟩⟩⟩
    | corrupt raw =>
      injection h with h; subst h
      exact ⟨by simp [initEnv, emptyData], fun _ =>
        ⟨by simp [initEnv, emptyData],
         ⟨⟨envId, "Default", [], now, now⟩, by simp [initEnv, emptyData], rfl⟩⟩⟩
    | parsed d₀ =>
      simp only [loadRequests] at h
      injection h with h
      subst h
      constructor
      · simp only [dedupRequestNames, migrateStringToJSON, migrateDefaultGroup,
          ensureDefaultGroup_environments]
        rw [loadStep3_environments]
        exact loadStep2_environments_ne envId now _
      · intro hpre
        have hpre₀ := hpre d₀ rfl
        constructor
        · simp only [dedupRequestNames, migrateStringToJSON, migrateDefaultGroup,
            ensureDefaultGroup_environments]
          rw [loadStep3_environments]
          exact loadStep2_environments_ne envId now _
        · simp only [dedupRequestNames, migrateStringToJSON, migrateDefaultGroup,
            ensureDefaultGroup_environments, ensureDefaultGroup_currentEnvironment]
          by_cases hA : d₀.vars ≠ [] ∧ d₀.environments = []
          · rw [if_pos hA,
              if_neg (show ¬ (migrateVarsToEnvs envId now d₀).environments = [] by
                simp [migrateVarsToEnvs])]
            split <;> simp [migrateVarsToEnvs]
          · rw [if_neg hA]
            by_cases hB : d₀.environments = []
            · rw [if_pos hB]
              split <;> simp [initEnv]
            · rw [if_neg hB]
              by_cases hC : d₀.currentEnvironment = "" ∧ 0 < d₀.environments.length
              · rw [if_pos hC]
                exact ⟨d₀.environments.headI, headI_mem_self hB, rfl⟩
              · rw [if_neg hC]
                rcases hpre₀ with hB' | hcur | hex
                · exact absurd hB' hB
                · exact absurd ⟨hcur, List.length_pos.mpr hB⟩ hC
                · exact hex
  · intro d envID
    constructor
    · intro hlen d' hok
      unfold deleteEnvironment at hok
      split_ifs at hok
    · rintro ⟨hne, e₀, he₀, hid₀⟩ d' hok
      unfold deleteEnvironment at hok
      split_ifs at hok with h₁ h₂ h₃ h₄
      · rcases hmatch : d.environments.filter (fun e => e.id ≠ envID) with _ | ⟨e, tl⟩ <;>
          rw [hmatch] at hok
        · exact absurd hok (by simp)
        · injection hok with hok
          subst hok
          refine ⟨⟨by simp, e, by simp, rfl⟩, fun _ => ?_⟩
          have hmem : e ∈ d.environments.filter (fun x => x.id ≠ envID) := by
            rw [hmatch]; exact List.mem_cons_self _ _
          have := (List.mem_filter.mp hmem).2
          simpa using this
      · injection hok with hok
        subst hok
        have hkeep : e₀ ∈ d.environments.filter (fun x => x.id ≠ envID) := by
          refine List.mem_filter.mpr ⟨he₀, ?_⟩
          simp only [decide_eq_true_eq]
          intro hcontra
          exact h₄ (hid₀ ▸ hcontra ▸ rfl)
        refine ⟨⟨List.ne_nil_of_mem hkeep, e₀, hkeep, hid₀⟩, fun hcur => ?_⟩
        exact absurd hcur (by simpa using h₄)

/-- Witness for the amended C5: a well-formed stored document loads to one
satisfying the environment invariant; deleting the only environment of a
one-environment document is rejected; deleting the current environment of a
two-environment document succeeds, switches `currentEnvironment` to the
remaining environment, and preserves the invariant. -/
theorem environment_invariant_load_delete_witness :
    (∃ doc,
      loadRequests (.parsed ⟨[], [], [⟨"e1", "Default", [], "", ""⟩], "e1", [],
          false⟩) "x" "g" "t" (fun s => .str s) = .ok doc ∧
      EnvInvariant doc) ∧
    (∀ d', deleteEnvironment
        ⟨[], [], [⟨"e1", "D1", [], "", ""⟩], "e1", [], false⟩ "e1" ≠ .ok d') ∧
    (∀ d', deleteEnvironment
        ⟨[], [], [⟨"e1", "D1", [], "", ""⟩, ⟨"e2", "D2", [], "", ""⟩], "e1", [],
          false⟩ "e1" = .ok d' →
      EnvInvariant d' ∧ d'.currentEnvironment ≠ "e1") := by
  refine ⟨⟨_, rfl, ?_⟩, ?_, ?_⟩
  · exact (environment_invariant_load_delete
      (.parsed ⟨[], [], [⟨"e1", "Default", [], "", ""⟩], "e1", [], false⟩)
      "x" "g" "t" (fun s => .str s) _ rfl).1.2
      (by
        intro d hd
        injection hd with hd
        subst hd
        exact Or.inr (Or.inr ⟨⟨"e1", "Default", [], "", ""⟩, by simp, rfl⟩))
  · exact ((environment_invariant_load_delete .absent "x" "g" "t"
      (fun s => .str s) _ rfl).2
      ⟨[], [], [⟨"e1", "D1", [], "", ""⟩], "e1", [], false⟩ "e1").1 (by simp)
  · intro d' hok
    have hres := ((environment_invariant_load_delete .absent "x" "g" "t"
      (fun s => .str s) _ rfl).2
      ⟨[], [], [⟨"e1", "D1", [], "", ""⟩, ⟨"e2", "D2", [], "", ""⟩], "e1", [],
        false⟩ "e1").2
      ⟨by simp, ⟨"e1", "D1", [], "", ""⟩, by simp, rfl⟩ d' hok
    exact ⟨hres.1, hres.2 rfl⟩

end GoRest
